import Mathlib

/-!
Shallow embedding of the repo-dashboard aggregation engine
(`src/dashboard/models.py` and `src/dashboard/services/aggregator.py`).

The two upstream HTTP clients (GitHub, Fly) are modelled as records of
oracle functions returning `Except String _`, where `.error` stands for a
raised exception whose message is the carried string.  Python dicts coming
back from the APIs are modelled as structures with `Option` fields:
`d.get(k, default)` becomes `field.getD default`, and a bare `d[k]` on a
missing key becomes a propagated `.error` (Python `KeyError`).

The mutable `errors: list[str]` accumulator of the aggregator is threaded
explicitly: every helper takes the current error list and returns the
extended one.  `asyncio.gather` preserves task order in its result list,
so the concurrent fan-outs are embedded as sequential left-to-right
traversals; the relative order of error strings appended by sibling tasks
is fixed to task order (the source leaves it to completion timing).

Python dict values (`lookup[app_name] = ...`, `{r.name: r for r in ...}`)
are modelled as association lists read through a last-binding-wins lookup,
which matches dict overwrite semantics.
-/

/-- Raw GitHub repo record (a JSON dict). -/
structure RawRepo where
  name : Option String := none
  default_branch : Option String := none
  full_name : Option String := none
  description : Option String := none
  html_url : Option String := none
  language : Option String := none
  updated_at : Option String := none
deriving Repr, DecidableEq

/-- Raw GitHub branch record. -/
structure RawBranch where
  name : Option String := none
deriving Repr, DecidableEq

/-- Raw GitHub compare-branches response. -/
structure RawCompare where
  ahead_by : Option Int := none
  behind_by : Option Int := none
deriving Repr, DecidableEq

/-- Raw GitHub codespace record; `owner_login` models `cs.get("owner", {}).get("login", "")`. -/
structure RawCodespace where
  name : Option String := none
  state : Option String := none
  owner_login : Option String := none
deriving Repr, DecidableEq

/-- Raw Fly machine record. -/
structure RawMachine where
  id : Option String := none
  name : Option String := none
  state : Option String := none
  region : Option String := none
  image : Option String := none
deriving Repr, DecidableEq

/-- Raw Fly app record. -/
structure RawFlyApp where
  name : Option String := none
  status : Option String := none
  hostname : Option String := none
deriving Repr, DecidableEq

/-- Oracle for `dashboard.clients.github.GitHubClient`: each method either
returns data or raises (`.error`). -/
structure GitHubClient where
  list_org_repos : String → Except String (List RawRepo)
  list_branches : String → String → Except String (List RawBranch)
  compare_branches : String → String → String → String → Except String RawCompare
  list_codespaces : String → String → Except String (List RawCodespace)

/-- Oracle for `dashboard.clients.fly.FlyClient`. -/
structure FlyClient where
  list_apps : String → Except String (List RawFlyApp)
  list_machines : String → Except String (List RawMachine)

/-- `models.RepoConfig`. -/
structure RepoConfig where
  name : String
  category : String := "Uncategorized"
  tags : List String := []
  fly_app : Option String := none
deriving Repr, DecidableEq

/-- `models.OrgConfig`. -/
structure OrgConfig where
  name : String
  include_all : Bool := true
  repos : List RepoConfig := []
deriving Repr, DecidableEq

/-- `models.FlyOrgConfig`. -/
structure FlyOrgConfig where
  slug : String
deriving Repr, DecidableEq

/-- `models.DashboardConfig`. -/
structure DashboardConfig where
  github_orgs : List OrgConfig := []
  fly_orgs : List FlyOrgConfig := []
deriving Repr, DecidableEq

/-- `models.BranchInfo`. -/
structure BranchInfo where
  name : String
  is_default : Bool := false
  ahead : Int := 0
  behind : Int := 0
deriving Repr, DecidableEq

/-- `models.CodespaceInfo`. -/
structure CodespaceInfo where
  name : String
  state : String
  owner : String := ""
deriving Repr, DecidableEq

/-- `models.RepoData` (`updated_at` kept as the raw string). -/
structure RepoData where
  org : String
  name : String
  full_name : String
  description : Option String := none
  html_url : String := ""
  default_branch : String := "main"
  language : Option String := none
  updated_at : Option String := none
  category : String := "Uncategorized"
  tags : List String := []
  branches : List BranchInfo := []
  codespaces : List CodespaceInfo := []
  codespace_count : Nat := 0
deriving Repr, DecidableEq

/-- `models.FlyMachine`. -/
structure FlyMachine where
  id : String
  name : String
  state : String
  region : String
  image : String := ""
  created_at : String := ""
  updated_at : String := ""
deriving Repr, DecidableEq

/-- `models.FlyAppInfo`. -/
structure FlyAppInfo where
  name : String
  org_slug : String := ""
  status : String := ""
  hostname : String := ""
  machines : List FlyMachine := []
deriving Repr, DecidableEq

/-- `models._FLY_PROBLEM_STATES`. -/
def FLY_PROBLEM_STATES : List String := ["suspended", "failed", "stopped", "dead"]

/-- `models.AttentionSignals`. -/
structure AttentionSignals where
  branches_ahead_count : Nat := 0
  branches_behind_count : Nat := 0
  active_codespace_count : Nat := 0
  fly_has_issues : Bool := false
deriving Repr, DecidableEq

/-- `AttentionSignals.all_clear` property. -/
def AttentionSignals.all_clear (a : AttentionSignals) : Bool :=
  a.branches_ahead_count == 0
    && a.branches_behind_count == 0
    && a.active_codespace_count == 0
    && !a.fly_has_issues

/-- `models.RepoView` (without the computed field). -/
structure RepoView where
  repo : RepoData
  fly_app : Option FlyAppInfo := none
deriving Repr, DecidableEq

/-- `RepoView.attention` computed field. -/
def RepoView.attention (rv : RepoView) : AttentionSignals :=
  let non_default := rv.repo.branches.filter (fun b => !b.is_default)
  let fly_has_issues :=
    match rv.fly_app with
    | none => false
    | some app =>
      if FLY_PROBLEM_STATES.contains app.status.toLower then true
      else app.machines.any (fun m => FLY_PROBLEM_STATES.contains m.state.toLower)
  { branches_ahead_count := non_default.countP (fun b => decide (0 < b.ahead))
    branches_behind_count := non_default.countP (fun b => decide (0 < b.behind))
    active_codespace_count := rv.repo.codespace_count
    fly_has_issues := fly_has_issues }

/-- `models.DashboardData` (the `generated_at` wall-clock stamp is outside the
pure model). -/
structure DashboardData where
  repos : List RepoView := []
  errors : List String := []
deriving Repr, DecidableEq

namespace Aggregator

/-- Association-list read with Python-dict semantics: the binding written
last wins (models `lookup[k]` / `k in lookup` on a dict built by repeated
assignment). -/
def dictGet {α : Type} (l : List (String × α)) (k : String) : Option α :=
  l.foldl (fun acc p => if p.1 == k then some p.2 else acc) none

/-- `{r.name: r for r in org_config.repos}` followed by `.get(k)`:
the comprehension lets a later duplicate key overwrite an earlier one. -/
def overridesDict (repos : List RepoConfig) (k : String) : Option RepoConfig :=
  repos.foldl (fun acc r => if r.name == k then some r else acc) none

/-- Body of the branch loop in `Aggregator._fetch_branches`: `b["name"]`
raises on a missing key; the default branch is never compared; a failed
compare is swallowed and leaves ahead/behind at zero. -/
def enrich_branch (gh : GitHubClient) (org repo default_branch : String)
    (b : RawBranch) : Except String BranchInfo :=
  match b.name with
  | none => .error "KeyError: name"
  | some name =>
    if name == default_branch then
      .ok { name := name, is_default := true, ahead := 0, behind := 0 }
    else
      match gh.compare_branches org repo default_branch name with
      | .ok comparison =>
        .ok { name := name, is_default := false,
              ahead := comparison.ahead_by.getD 0,
              behind := comparison.behind_by.getD 0 }
      | .error _ =>
        .ok { name := name, is_default := false, ahead := 0, behind := 0 }

/-- The branch loop itself: aborts at the first raised `KeyError`. -/
def enrich_branches (gh : GitHubClient) (org repo default_branch : String) :
    List RawBranch → Except String (List BranchInfo)
  | [] => .ok []
  | b :: bs =>
    match enrich_branch gh org repo default_branch b with
    | .error e => .error e
    | .ok bi =>
      match enrich_branches gh org repo default_branch bs with
      | .error e => .error e
      | .ok rest => .ok (bi :: rest)

/-- `Aggregator._fetch_branches`: a listing failure is caught, recorded and
yields an empty branch list; a `KeyError` inside the loop propagates. -/
def fetch_branches (gh : GitHubClient) (org repo default_branch : String)
    (errors : List String) : Except String (List BranchInfo) × List String :=
  match gh.list_branches org repo with
  | .error exc =>
    (.ok [], errors ++ ["Branches for " ++ org ++ "/" ++ repo ++ ": " ++ exc])
  | .ok raw_branches =>
    (enrich_branches gh org repo default_branch raw_branches, errors)

/-- `Aggregator._fetch_codespaces`. -/
def fetch_codespaces (gh : GitHubClient) (org repo : String)
    (errors : List String) : List CodespaceInfo × List String :=
  match gh.list_codespaces org repo with
  | .error exc =>
    ([], errors ++ ["Codespaces for " ++ org ++ "/" ++ repo ++ ": " ++ exc])
  | .ok raw =>
    (raw.map (fun cs =>
      { name := cs.name.getD "", state := cs.state.getD "Unknown",
        owner := cs.owner_login.getD "" }), errors)

/-- `Aggregator._enrich_repo`: `repo_data["name"]` raises on a missing key;
category/tags come from the override dict; branches and codespaces are
fetched and the `KeyError` of a nameless branch propagates. -/
def enrich_repo (gh : GitHubClient) (org : String) (repo_data : RawRepo)
    (overrides : List RepoConfig) (errors : List String) :
    Except String RepoView × List String :=
  match repo_data.name with
  | none => (.error "KeyError: name", errors)
  | some repo_name =>
    let default_branch := repo_data.default_branch.getD "main"
    let override := overridesDict overrides repo_name
    let category := match override with | some o => o.category | none => "Uncategorized"
    let tags := match override with | some o => o.tags | none => []
    let (branchesE, errors1) := fetch_branches gh org repo_name default_branch errors
    let (codespaces, errors2) := fetch_codespaces gh org repo_name errors1
    match branchesE with
    | .error e => (.error e, errors2)
    | .ok branches =>
      (.ok { repo :=
              { org := org
                name := repo_name
                full_name := repo_data.full_name.getD (org ++ "/" ++ repo_name)
                description := repo_data.description
                html_url := repo_data.html_url.getD ""
                default_branch := default_branch
                language := repo_data.language
                updated_at := repo_data.updated_at
                category := category
                tags := tags
                branches := branches
                codespaces := codespaces
                codespace_count := codespaces.length }
             fly_app := none }, errors2)

/-- The `include_all=False` restriction:
`[r for r in all_repos if r.get("name") in listed_names]`. -/
def listed_filter (oc : OrgConfig) (rs : List RawRepo) : List RawRepo :=
  rs.filter (fun r =>
    match r.name with
    | some n => oc.repos.any (fun c => c.name == n)
    | none => false)

/-- The working set of repos an org contributes (empty when the listing
call raised). -/
def working_set (gh : GitHubClient) (oc : OrgConfig) : List RawRepo :=
  match gh.list_org_repos oc.name with
  | .error _ => []
  | .ok rs => if oc.include_all then rs else listed_filter oc rs

/-- One step of the result-collection loop after `asyncio.gather(...,
return_exceptions=True)`: an exception becomes an error string, a value is
appended to the views. -/
def enrich_step (gh : GitHubClient) (oc : OrgConfig)
    (acc : List RepoView × List String) (repo_data : RawRepo) :
    List RepoView × List String :=
  match enrich_repo gh oc.name repo_data oc.repos acc.2 with
  | (.error e, errs) => (acc.1, errs ++ ["Enriching repo: " ++ e])
  | (.ok v, errs) => (acc.1 ++ [v], errs)

/-- `Aggregator._fetch_org_repos`. -/
def fetch_org_repos (gh : GitHubClient) (oc : OrgConfig)
    (errors : List String) : List RepoView × List String :=
  match gh.list_org_repos oc.name with
  | .error exc =>
    ([], errors ++ ["GitHub org " ++ oc.name ++ ": " ++ exc])
  | .ok all_repos =>
    let repos_to_process := if oc.include_all then all_repos else listed_filter oc all_repos
    repos_to_process.foldl (enrich_step gh oc) ([], errors)

/-- `Aggregator._get_fly_app_name`: first override whose name matches wins. -/
def get_fly_app_name (oc : OrgConfig) (repo_name : String) : Option String :=
  match oc.repos.find? (fun c => c.name == repo_name) with
  | some cfg => cfg.fly_app
  | none => none

/-- Body of the per-app loop of `Aggregator._build_fly_lookup`: an unnamed
app is skipped; a machine-listing failure is recorded and the app is still
indexed with an empty machine list. -/
def process_fly_app (fly : FlyClient) (slug : String)
    (acc : List (String × FlyAppInfo) × List String) (app_data : RawFlyApp) :
    List (String × FlyAppInfo) × List String :=
  let app_name := app_data.name.getD ""
  if app_name == "" then acc
  else
    let fetched : List FlyMachine × List String :=
      match fly.list_machines app_name with
      | .ok ms =>
        (ms.map (fun m =>
          { id := m.id.getD "", name := m.name.getD "",
            state := m.state.getD "unknown", region := m.region.getD "",
            image := m.image.getD "" }), acc.2)
      | .error exc =>
        ([], acc.2 ++ ["Fly machines for " ++ app_name ++ ": " ++ exc])
    let machines := fetched.1
    let errs := fetched.2
    (acc.1 ++ [(app_name,
      { name := app_name, org_slug := slug, status := app_data.status.getD "",
        hostname := app_data.hostname.getD "", machines := machines })], errs)

/-- Per-fleet-org step of `Aggregator._build_fly_lookup`: an app-listing
failure is recorded and the org contributes nothing. -/
def process_fly_org (fly : FlyClient)
    (acc : List (String × FlyAppInfo) × List String) (fly_org : FlyOrgConfig) :
    List (String × FlyAppInfo) × List String :=
  match fly.list_apps fly_org.slug with
  | .error exc => (acc.1, acc.2 ++ ["Fly org " ++ fly_org.slug ++ ": " ++ exc])
  | .ok apps => apps.foldl (process_fly_app fly fly_org.slug) acc

/-- `Aggregator._build_fly_lookup`. -/
def build_fly_lookup (fly : FlyClient) (fly_orgs : List FlyOrgConfig)
    (errors : List String) : List (String × FlyAppInfo) × List String :=
  fly_orgs.foldl (process_fly_org fly) ([], errors)

/-- The fleet-attach step of `Aggregator.build`:
`if fly_app_name and fly_app_name in fly_lookup` (a `None` or empty
mapping is falsy and leaves the view untouched). -/
def attach_fly (lookup : List (String × FlyAppInfo)) (oc : OrgConfig)
    (rv : RepoView) : RepoView :=
  match get_fly_app_name oc rv.repo.name with
  | none => rv
  | some n =>
    if n == "" then rv
    else
      match dictGet lookup n with
      | none => rv
      | some app => { rv with fly_app := some app }

/-- Per-GitHub-org step of `Aggregator.build`. -/
def org_step (gh : GitHubClient) (lookup : List (String × FlyAppInfo))
    (acc : List RepoView × List String) (oc : OrgConfig) :
    List RepoView × List String :=
  let (org_repos, errs) := fetch_org_repos gh oc acc.2
  (acc.1 ++ org_repos.map (attach_fly lookup oc), errs)

/-- `Aggregator.build`. -/
def build (config : DashboardConfig) (gh : GitHubClient)
    (fly : Option FlyClient) : DashboardData :=
  let init : List (String × FlyAppInfo) × List String :=
    match fly with
    | some f => build_fly_lookup f config.fly_orgs []
    | none => ([], [])
  let result := config.github_orgs.foldl (org_step gh init.1) ([], init.2)
  { repos := result.1, errors := result.2 }

/-- The view produced by enriching one raw repo (the error list threaded in
is irrelevant to it, as proved below). -/
def enrich_result (gh : GitHubClient) (oc : OrgConfig) (r : RawRepo) :
    Except String RepoView :=
  (enrich_repo gh oc.name r oc.repos []).1

/-- The error strings one raw repo's enrichment contributes. -/
def enrich_errs (gh : GitHubClient) (oc : OrgConfig) (r : RawRepo) : List String :=
  match (enrich_repo gh oc.name r oc.repos []).1 with
  | .error e => (enrich_repo gh oc.name r oc.repos []).2 ++ ["Enriching repo: " ++ e]
  | .ok _ => (enrich_repo gh oc.name r oc.repos []).2

/-- The error strings one org's repo phase contributes. -/
def org_errs (gh : GitHubClient) (oc : OrgConfig) : List String :=
  match gh.list_org_repos oc.name with
  | .error exc => ["GitHub org " ++ oc.name ++ ": " ++ exc]
  | .ok _ => ((working_set gh oc).map (enrich_errs gh oc)).flatten

/-- The fleet-attached views one org contributes to the output. -/
def org_views (gh : GitHubClient) (lookup : List (String × FlyAppInfo))
    (oc : OrgConfig) : List RepoView :=
  ((working_set gh oc).filterMap (fun r => (enrich_result gh oc r).toOption)).map
    (attach_fly lookup oc)

/-- The fleet lookup `build` works with. -/
def fly_lookup_of (fly : Option FlyClient) (config : DashboardConfig) :
    List (String × FlyAppInfo) :=
  match fly with
  | some f => (build_fly_lookup f config.fly_orgs []).1
  | none => []

/-- The error strings the fleet phase of `build` contributes. -/
def fly_errs_of (fly : Option FlyClient) (config : DashboardConfig) : List String :=
  match fly with
  | some f => (build_fly_lookup f config.fly_orgs []).2
  | none => []

end Aggregator

namespace Aggregator

/-! ### Error-threading and fold characterizations -/

theorem fetch_branches_append (gh : GitHubClient) (org repo db : String)
    (errors : List String) :
    fetch_branches gh org repo db errors =
      ((fetch_branches gh org repo db []).1,
       errors ++ (fetch_branches gh org repo db []).2) := by
  cases h : gh.list_branches org repo <;> simp [fetch_branches, h]

theorem fetch_codespaces_append (gh : GitHubClient) (org repo : String)
    (errors : List String) :
    fetch_codespaces gh org repo errors =
      ((fetch_codespaces gh org repo []).1,
       errors ++ (fetch_codespaces gh org repo []).2) := by
  cases h : gh.list_codespaces org repo <;> simp [fetch_codespaces, h]

theorem enrich_repo_append (gh : GitHubClient) (org : String) (rd : RawRepo)
    (ov : List RepoConfig) (errors : List String) :
    enrich_repo gh org rd ov errors =
      ((enrich_repo gh org rd ov []).1,
       errors ++ (enrich_repo gh org rd ov []).2) := by
  cases hn : rd.name with
  | none => simp [enrich_repo, hn]
  | some n =>
    cases hls : gh.list_branches org n with
    | error e1 =>
      cases hcs : gh.list_codespaces org n <;>
        simp [enrich_repo, hn, fetch_branches, fetch_codespaces, hls, hcs]
    | ok rbs =>
      cases hcs : gh.list_codespaces org n <;>
        cases heb : enrich_branches gh org n (rd.default_branch.getD "main") rbs <;>
          simp [enrich_repo, hn, fetch_branches, fetch_codespaces, hls, hcs, heb]

/-- A fold step that only appends to both components distributes over any
initial accumulator. -/
theorem foldl_bi {α β γ : Type} (step : (List α × List β) → γ → (List α × List β))
    (h : ∀ (l : List α) (e : List β) (x : γ),
      step (l, e) x = (l ++ (step ([], []) x).1, e ++ (step ([], []) x).2)) :
    ∀ (xs : List γ) (l : List α) (e : List β),
      xs.foldl step (l, e) =
        (l ++ (xs.foldl step ([], [])).1, e ++ (xs.foldl step ([], [])).2) := by
  intro xs
  induction xs with
  | nil => intro l e; simp
  | cons x xs ih =>
    intro l e
    have hx := h l e x
    simp only [List.foldl_cons]
    rw [hx]
    rcases h0 : step ([], []) x with ⟨a, b⟩
    simp only [h0] at hx ⊢
    rw [ih (l ++ a) (e ++ b), ih a b]
    simp [List.append_assoc]

theorem enrich_step_bi (gh : GitHubClient) (oc : OrgConfig)
    (l : List RepoView) (e : List String) (r : RawRepo) :
    enrich_step gh oc (l, e) r =
      (l ++ (enrich_step gh oc ([], []) r).1, e ++ (enrich_step gh oc ([], []) r).2) := by
  have ha := enrich_repo_append gh oc.name r oc.repos e
  rcases hb : enrich_repo gh oc.name r oc.repos [] with ⟨res, d⟩
  rw [hb] at ha
  simp only [enrich_step, ha, hb]
  rcases res with e' | v <;> simp [List.append_assoc]

theorem foldl_enrich_step (gh : GitHubClient) (oc : OrgConfig)
    (xs : List RawRepo) (l : List RepoView) (e : List String) :
    xs.foldl (enrich_step gh oc) (l, e) =
      (l ++ xs.filterMap (fun r => (enrich_result gh oc r).toOption),
       e ++ (xs.map (enrich_errs gh oc)).flatten) := by
  induction xs generalizing l e with
  | nil => simp
  | cons r xs ih =>
    simp only [List.foldl_cons]
    rw [enrich_step_bi]
    have hstep : enrich_step gh oc ([], []) r =
        ((enrich_result gh oc r).toOption.toList, enrich_errs gh oc r) := by
      simp only [enrich_step, enrich_result, enrich_errs]
      rcases hb : enrich_repo gh oc.name r oc.repos [] with ⟨res, errs⟩
      rcases res with e' | v <;> simp_all [Except.toOption]
    rw [hstep, ih]
    rcases hres : (enrich_result gh oc r).toOption with _ | v <;>
      simp [hres, List.append_assoc]

theorem fetch_org_repos_spec (gh : GitHubClient) (oc : OrgConfig)
    (errors : List String) :
    fetch_org_repos gh oc errors =
      ((working_set gh oc).filterMap (fun r => (enrich_result gh oc r).toOption),
       errors ++ org_errs gh oc) := by
  cases h : gh.list_org_repos oc.name with
  | error exc => simp [fetch_org_repos, working_set, org_errs, h]
  | ok rs =>
    simp only [fetch_org_repos, working_set, org_errs, h]
    rw [foldl_enrich_step]
    simp

theorem org_step_bi (gh : GitHubClient) (lookup : List (String × FlyAppInfo))
    (l : List RepoView) (e : List String) (oc : OrgConfig) :
    org_step gh lookup (l, e) oc =
      (l ++ (org_step gh lookup ([], []) oc).1,
       e ++ (org_step gh lookup ([], []) oc).2) := by
  simp [org_step, fetch_org_repos_spec]

theorem foldl_org_step (gh : GitHubClient) (lookup : List (String × FlyAppInfo))
    (orgs : List OrgConfig) (l : List RepoView) (e : List String) :
    orgs.foldl (org_step gh lookup) (l, e) =
      (l ++ (orgs.map (org_views gh lookup)).flatten,
       e ++ (orgs.map (org_errs gh)).flatten) := by
  induction orgs generalizing l e with
  | nil => simp
  | cons oc orgs ih =>
    simp only [List.foldl_cons]
    rw [org_step_bi, ih]
    have hstep : org_step gh lookup ([], []) oc =
        (org_views gh lookup oc, org_errs gh oc) := by
      simp [org_step, fetch_org_repos_spec, org_views]
    rw [hstep]
    simp [List.append_assoc]

theorem build_spec (config : DashboardConfig) (gh : GitHubClient)
    (fly : Option FlyClient) :
    build config gh fly =
      { repos := (config.github_orgs.map
          (org_views gh (fly_lookup_of fly config))).flatten,
        errors := fly_errs_of fly config ++
          (config.github_orgs.map (org_errs gh)).flatten } := by
  cases fly with
  | none => simp [build, fly_lookup_of, fly_errs_of, foldl_org_step]
  | some f =>
    simp only [build, fly_lookup_of, fly_errs_of]
    rcases hb : build_fly_lookup f config.fly_orgs [] with ⟨lk, es⟩
    simp [foldl_org_step]

/-! ### Branch enrichment -/

theorem enrich_branch_ok (gh : GitHubClient) (org repo db : String)
    (b : RawBranch) (n : String) (hn : b.name = some n) :
    ∃ bi : BranchInfo, enrich_branch gh org repo db b = .ok bi ∧ bi.name = n := by
  simp only [enrich_branch, hn]
  by_cases h : (n == db) = true
  · exact ⟨{ name := n, is_default := true, ahead := 0, behind := 0 }, by simp [h], rfl⟩
  · cases hc : gh.compare_branches org repo db n with
    | error e =>
      exact ⟨{ name := n, is_default := false, ahead := 0, behind := 0 },
        by simp [h, hc], rfl⟩
    | ok c =>
      exact ⟨{ name := n, is_default := false, ahead := c.ahead_by.getD 0,
               behind := c.behind_by.getD 0 }, by simp [h, hc], rfl⟩

theorem enrich_branches_ok (gh : GitHubClient) (org repo db : String)
    (bs : List RawBranch) (h : ∀ b ∈ bs, b.name.isSome) :
    ∃ l, enrich_branches gh org repo db bs = .ok l ∧ l.length = bs.length := by
  induction bs with
  | nil => exact ⟨[], rfl, rfl⟩
  | cons b bs ih =>
    have hb : b.name.isSome := h b (List.mem_cons_self b bs)
    rcases Option.isSome_iff_exists.mp hb with ⟨n, hn⟩
    rcases enrich_branch_ok gh org repo db b n hn with ⟨bi, hbi, -⟩
    rcases ih (fun x hx => h x (List.mem_cons_of_mem b hx)) with ⟨l, hl, hlen⟩
    exact ⟨bi :: l, by simp [enrich_branches, hbi, hl], by simp [hlen]⟩

end Aggregator

namespace Aggregator

/-- C2: each fetched branch is marked `is_default` exactly when its name
equals the repo's `default_branch`; a default branch always gets
`ahead = behind = 0` and its entry is the same for every client (so the
compare oracle is never consulted for it); a failed compare on a
non-default branch appends no error string (the error list is returned
unchanged whenever the listing call succeeded) and leaves `ahead` and
`behind` at zero. -/
theorem branch_default_marking_and_silent_compare
    (gh : GitHubClient) (org repo db : String) (errors : List String)
    (raws : List RawBranch)
    (hls : gh.list_branches org repo = .ok raws) :
    (fetch_branches gh org repo db errors).2 = errors ∧
    (∀ b ∈ raws, ∀ n : String, b.name = some n →
      ∃ bi : BranchInfo, enrich_branch gh org repo db b = .ok bi ∧
        bi.name = n ∧
        bi.is_default = (n == db) ∧
        (bi.is_default = true → bi.ahead = 0 ∧ bi.behind = 0) ∧
        ((n == db) = true → ∀ gh2 : GitHubClient,
          enrich_branch gh2 org repo db b =
            .ok { name := n, is_default := true, ahead := 0, behind := 0 }) ∧
        (bi.is_default = false → ∀ e : String,
          gh.compare_branches org repo db n = .error e →
          bi.ahead = 0 ∧ bi.behind = 0)) := by
  constructor
  · simp [fetch_branches, hls]
  · intro b _ n hn
    by_cases h : (n == db) = true
    · refine ⟨{ name := n, is_default := true, ahead := 0, behind := 0 }, ?_, rfl, ?_, ?_, ?_, ?_⟩
      · simp [enrich_branch, hn, h]
      · simp [h]
      · exact fun _ => ⟨rfl, rfl⟩
      · exact fun _ gh2 => by simp [enrich_branch, hn, h]
      · intro hfd; simp at hfd
    · cases hc : gh.compare_branches org repo db n with
      | ok c =>
        refine ⟨{ name := n, is_default := false,
                  ahead := c.ahead_by.getD 0, behind := c.behind_by.getD 0 },
                by simp [enrich_branch, hn, h, hc], rfl, by simp [h], ?_, ?_, ?_⟩
        · intro hd; simp at hd
        · intro hdb; exact absurd hdb h
        · intro _ e he; exact Except.noConfusion he
      | error e0 =>
        refine ⟨{ name := n, is_default := false, ahead := 0, behind := 0 },
                by simp [enrich_branch, hn, h, hc], rfl, by simp [h], ?_, ?_, ?_⟩
        · intro hd; simp at hd
        · intro hdb; exact absurd hdb h
        · exact fun _ _ _ => ⟨rfl, rfl⟩

/-- A concrete client exercising `branch_default_marking_and_silent_compare`. -/
def ghWitness : GitHubClient :=
  { list_org_repos := fun _ => .ok []
    list_branches := fun _ _ => .ok [{ name := some "main" }, { name := some "dev" }]
    compare_branches := fun _ _ _ _ => .error "boom"
    list_codespaces := fun _ _ => .ok [] }

theorem branch_default_marking_witness :
    (fetch_branches ghWitness "o" "r" "main" ["x"]).2 = ["x"] :=
  (branch_default_marking_and_silent_compare ghWitness "o" "r" "main" ["x"]
    [{ name := some "main" }, { name := some "dev" }] rfl).1

/-- C4: the derived attention signals count non-default branches that are
ahead (resp. behind), mirror the codespace count, flag fleet issues exactly
when an attached app's lower-cased status or some machine's lower-cased
state is a problem state, and `all_clear` holds exactly when all four
signals are clean. -/
theorem attention_signals_spec (rv : RepoView) :
    rv.attention.branches_ahead_count
        = rv.repo.branches.countP (fun b => !b.is_default && decide (0 < b.ahead)) ∧
    rv.attention.branches_behind_count
        = rv.repo.branches.countP (fun b => !b.is_default && decide (0 < b.behind)) ∧
    rv.attention.active_codespace_count = rv.repo.codespace_count ∧
    (rv.attention.fly_has_issues = true ↔
      ∃ app, rv.fly_app = some app ∧
        (app.status.toLower ∈ FLY_PROBLEM_STATES ∨
         ∃ m ∈ app.machines, m.state.toLower ∈ FLY_PROBLEM_STATES)) ∧
    (rv.attention.all_clear = true ↔
      rv.attention.branches_ahead_count = 0 ∧
      rv.attention.branches_behind_count = 0 ∧
      rv.attention.active_codespace_count = 0 ∧
      rv.attention.fly_has_issues = false) := by
  refine ⟨?_, ?_, rfl, ?_, ?_⟩
  · simp [RepoView.attention, List.countP_filter, Bool.and_comm]
  · simp [RepoView.attention, List.countP_filter, Bool.and_comm]
  · have hval : rv.attention.fly_has_issues =
        (match rv.fly_app with
         | none => false
         | some app =>
           if FLY_PROBLEM_STATES.contains app.status.toLower then true
           else app.machines.any fun m => FLY_PROBLEM_STATES.contains m.state.toLower) := rfl
    rw [hval]
    cases hfa : rv.fly_app with
    | none => simp
    | some app =>
      have hred : (match some app with
          | none => false
          | some app =>
            if FLY_PROBLEM_STATES.contains app.status.toLower = true then true
            else app.machines.any fun m => FLY_PROBLEM_STATES.contains m.state.toLower) =
          (if FLY_PROBLEM_STATES.contains app.status.toLower = true then true
           else app.machines.any fun m =>
             FLY_PROBLEM_STATES.contains m.state.toLower) := rfl
      rw [hred]
      by_cases hs : FLY_PROBLEM_STATES.contains app.status.toLower = true
      · simp only [hs, if_true, true_iff]
        exact ⟨app, rfl, Or.inl (by simpa [List.contains, List.elem_iff] using hs)⟩
      · rw [if_neg hs]
        constructor
        · intro h
          rcases List.any_eq_true.mp h with ⟨m, hm, hms⟩
          exact ⟨app, rfl, Or.inr ⟨m, hm, by simpa [List.contains, List.elem_iff] using hms⟩⟩
        · rintro ⟨app2, happ2, hcase⟩
          obtain rfl : app = app2 := Option.some_inj.mp happ2
          rcases hcase with h | ⟨m, hm, hms⟩
          · exact absurd (show FLY_PROBLEM_STATES.contains app.status.toLower = true by
              simpa [List.contains, List.elem_iff] using h) hs
          · exact List.any_eq_true.mpr ⟨m, hm, by simpa [List.contains, List.elem_iff] using hms⟩
  · simp [AttentionSignals.all_clear, Bool.and_eq_true, beq_iff_eq, Bool.not_eq_true',
      and_assoc]

/-! ### Working-set / inclusion policy -/

/-- C6: with `include_all = false` the working set is exactly the fetched
repos whose name equals some configured override's name, kept in upstream
order; with `include_all = true` it is every fetched repo; and the views an
org contributes come from exactly that working set, in order. -/
theorem inclusion_policy_working_set
    (gh : GitHubClient) (oc : OrgConfig) (errors : List String)
    (rs : List RawRepo) (hls : gh.list_org_repos oc.name = .ok rs) :
    (oc.include_all = false →
      working_set gh oc =
        rs.filter (fun r => oc.repos.any (fun c => some c.name == r.name))) ∧
    (oc.include_all = true → working_set gh oc = rs) ∧
    (fetch_org_repos gh oc errors).1 =
      (working_set gh oc).filterMap (fun r => (enrich_result gh oc r).toOption) := by
  refine ⟨?_, ?_, ?_⟩
  · intro hinc
    have hp : ∀ r : RawRepo,
        (match r.name with
         | some n => oc.repos.any (fun c => c.name == n)
         | none => false) = oc.repos.any (fun c => some c.name == r.name) := by
      intro r
      cases hr : r.name <;> simp [hr]
    simp only [working_set, hls, hinc, Bool.false_eq_true, if_false, listed_filter]
    exact List.filter_congr (fun r _ => hp r)
  · intro hinc
    simp [working_set, hls, hinc]
  · rw [fetch_org_repos_spec]

/-- A client and org config exercising `inclusion_policy_working_set`
(overrides `repo1, repo3` against upstream `repo1, repo2, repo3`). -/
def ghInclusion : GitHubClient :=
  { list_org_repos := fun _ =>
      .ok [{ name := some "repo1" }, { name := some "repo2" }, { name := some "repo3" }]
    list_branches := fun _ _ => .ok []
    compare_branches := fun _ _ _ _ => .error "boom"
    list_codespaces := fun _ _ => .ok [] }

def ocInclusion : OrgConfig :=
  { name := "o", include_all := false
    repos := [{ name := "repo1" }, { name := "repo3" }] }

theorem inclusion_policy_witness :
    working_set ghInclusion ocInclusion =
      ([{ name := some "repo1" }, { name := some "repo2" }, { name := some "repo3" }] :
        List RawRepo).filter
        (fun r => ocInclusion.repos.any (fun c => some c.name == r.name)) :=
  (inclusion_policy_working_set ghInclusion ocInclusion [] _ rfl).1 rfl

/-! ### Fleet lookup -/

/-- C10: a fleet app record with a missing or empty name is skipped: the
lookup and error list are unchanged (for every machine oracle, so its
machines are never fetched), and dropping it from an app listing does not
change the fold at all. -/
theorem unnamed_fly_app_skipped
    (fly : FlyClient) (slug : String)
    (acc : List (String × FlyAppInfo) × List String) (app : RawFlyApp)
    (h : app.name = none ∨ app.name = some "") :
    process_fly_app fly slug acc app = acc ∧
    (∀ fly2 : FlyClient, process_fly_app fly2 slug acc app = acc) ∧
    (∀ pre post : List RawFlyApp,
      (pre ++ app :: post).foldl (process_fly_app fly slug) acc =
        (pre ++ post).foldl (process_fly_app fly slug) acc) := by
  have hname : app.name.getD "" = "" := by rcases h with h | h <;> simp [h]
  have hskip : ∀ (fly2 : FlyClient)
      (acc2 : List (String × FlyAppInfo) × List String),
      process_fly_app fly2 slug acc2 app = acc2 := by
    intro fly2 acc2
    simp [process_fly_app, hname]
  refine ⟨hskip fly acc, fun fly2 => hskip fly2 acc, ?_⟩
  intro pre post
  rw [List.foldl_append, List.foldl_append, List.foldl_cons, hskip fly]

theorem unnamed_fly_app_skipped_witness :
    process_fly_app
      { list_apps := fun _ => .ok [], list_machines := fun _ => .error "down" }
      "s" ([], []) { name := none } = ([], []) :=
  (unnamed_fly_app_skipped _ "s" ([], []) { name := none } (Or.inl rfl)).1

/-- Reading a Python-dict association list: the suffix wins. -/
theorem dictGet_or {α : Type} (l : List (String × α)) (k : String) :
    ∀ init : Option α,
      l.foldl (fun acc p => if p.1 == k then some p.2 else acc) init =
        (dictGet l k).or init := by
  induction l with
  | nil => intro init; simp [dictGet, Option.or]
  | cons p l ih =>
    intro init
    have hd : dictGet (p :: l) k =
        (dictGet l k).or (if p.1 == k then some p.2 else none) := by
      show List.foldl (fun acc q => if q.1 == k then some q.2 else acc)
          none (p :: l) = _
      rw [List.foldl_cons]
      exact ih (if p.1 == k then some p.2 else none)
    rw [List.foldl_cons, ih (if p.1 == k then some p.2 else init), hd]
    cases hl : dictGet l k with
    | some v => simp only [Option.or_some]
    | none =>
      by_cases hp : (p.1 == k) = true <;> simp [hp, Option.or]

theorem dictGet_append {α : Type} (l1 l2 : List (String × α)) (k : String) :
    dictGet (l1 ++ l2) k = (dictGet l2 k).or (dictGet l1 k) := by
  show List.foldl (fun acc q => if q.1 == k then some q.2 else acc)
      none (l1 ++ l2) = _
  rw [List.foldl_append]
  exact dictGet_or l2 k (dictGet l1 k)

theorem dictGet_snoc {α : Type} (l : List (String × α)) (k : String) (v : α) :
    dictGet (l ++ [(k, v)]) k = some v := by
  rw [dictGet_append]
  have h1 : dictGet [(k, v)] k = some v := by
    show List.foldl (fun acc q => if q.1 == k then some q.2 else acc)
        none [(k, v)] = some v
    rw [List.foldl_cons, List.foldl_nil, if_pos (by simp)]
  rw [h1, Option.or_some]

theorem dictGet_snoc_ne {α : Type} (l : List (String × α)) (k k' : String) (v : α)
    (h : (k' == k) = false) :
    dictGet (l ++ [(k, v)]) k' = dictGet l k' := by
  rw [dictGet_append]
  have hne : ¬((k == k') = true) := by
    simp only [beq_iff_eq]
    intro hkk
    rw [beq_eq_false_iff_ne] at h
    exact h hkk.symm
  have h1 : dictGet [(k, v)] k' = none := by
    show List.foldl (fun acc q => if q.1 == k' then some q.2 else acc)
        none [(k, v)] = none
    rw [List.foldl_cons, List.foldl_nil, if_neg hne]
  rw [h1]
  cases dictGet l k' <;> simp [Option.or]

theorem process_fly_app_bi (fly : FlyClient) (slug : String)
    (l : List (String × FlyAppInfo)) (e : List String) (app : RawFlyApp) :
    process_fly_app fly slug (l, e) app =
      (l ++ (process_fly_app fly slug ([], []) app).1,
       e ++ (process_fly_app fly slug ([], []) app).2) := by
  by_cases hname : (app.name.getD "" == "") = true
  · simp [process_fly_app, hname]
  · cases hm : fly.list_machines (app.name.getD "") <;>
      simp [process_fly_app, hname, hm]

theorem process_fly_org_bi (fly : FlyClient)
    (l : List (String × FlyAppInfo)) (e : List String) (o : FlyOrgConfig) :
    process_fly_org fly (l, e) o =
      (l ++ (process_fly_org fly ([], []) o).1,
       e ++ (process_fly_org fly ([], []) o).2) := by
  cases ha : fly.list_apps o.slug with
  | error exc => simp [process_fly_org, ha]
  | ok apps =>
    simp only [process_fly_org, ha]
    exact foldl_bi (process_fly_app fly o.slug)
      (fun l e app => process_fly_app_bi fly o.slug l e app) apps l e

theorem build_fly_lookup_append (f : FlyClient) (o1 o2 : List FlyOrgConfig)
    (errors : List String) :
    build_fly_lookup f (o1 ++ o2) errors =
      ((build_fly_lookup f o1 errors).1 ++ (build_fly_lookup f o2 []).1,
       (build_fly_lookup f o1 errors).2 ++ (build_fly_lookup f o2 []).2) := by
  simp only [build_fly_lookup, List.foldl_append]
  rcases h1 : o1.foldl (process_fly_org f) ([], errors) with ⟨L, E⟩
  rw [foldl_bi (process_fly_org f)
    (fun l e o => process_fly_org_bi f l e o) o2 L E]

/-- Every entry of the fleet lookup is indexed by the app's own, nonempty
name. -/
theorem build_fly_lookup_inv (f : FlyClient) (orgs : List FlyOrgConfig)
    (errors : List String) :
    ∀ p ∈ (build_fly_lookup f orgs errors).1,
      p.2.name = p.1 ∧ (p.1 == "") = false := by
  have happ : ∀ slug (acc : List (String × FlyAppInfo) × List String) app,
      (∀ p ∈ acc.1, (p : String × FlyAppInfo).2.name = p.1 ∧ (p.1 == "") = false) →
      ∀ p ∈ (process_fly_app f slug acc app).1,
        p.2.name = p.1 ∧ (p.1 == "") = false := by
    intro slug acc app hacc p hp
    by_cases hname : (app.name.getD "" == "") = true
    · rw [process_fly_app] at hp
      simp only [hname, if_pos] at hp
      exact hacc p hp
    · rw [process_fly_app] at hp
      simp only [hname, if_neg, Bool.false_eq_true, not_false_iff] at hp
      rcases List.mem_append.mp hp with h | h
      · exact hacc p h
      · rcases List.mem_singleton.mp h with rfl
        exact ⟨rfl, Bool.not_eq_true _ ▸ eq_false_of_ne_true hname⟩
  have hfold : ∀ (as : List RawFlyApp) (slug : String)
      (acc : List (String × FlyAppInfo) × List String),
      (∀ p ∈ acc.1, (p : String × FlyAppInfo).2.name = p.1 ∧ (p.1 == "") = false) →
      ∀ p ∈ (as.foldl (process_fly_app f slug) acc).1,
        p.2.name = p.1 ∧ (p.1 == "") = false := by
    intro as slug
    induction as with
    | nil => intro acc hacc; simpa using hacc
    | cons a as ih =>
      intro acc hacc
      simp only [List.foldl_cons]
      exact ih (process_fly_app f slug acc a) (happ slug acc a hacc)
  have horg : ∀ (acc : List (String × FlyAppInfo) × List String) o,
      (∀ p ∈ acc.1, (p : String × FlyAppInfo).2.name = p.1 ∧ (p.1 == "") = false) →
      ∀ p ∈ (process_fly_org f acc o).1,
        p.2.name = p.1 ∧ (p.1 == "") = false := by
    intro acc o hacc
    cases ha : f.list_apps o.slug with
    | error exc => simpa [process_fly_org, ha] using hacc
    | ok apps =>
      simp only [process_fly_org, ha]
      exact hfold apps o.slug acc hacc
  suffices hgen : ∀ (os : List FlyOrgConfig)
      (acc : List (String × FlyAppInfo) × List String),
      (∀ p ∈ acc.1, (p : String × FlyAppInfo).2.name = p.1 ∧ (p.1 == "") = false) →
      ∀ p ∈ (os.foldl (process_fly_org f) acc).1,
        p.2.name = p.1 ∧ (p.1 == "") = false by
    exact hgen orgs ([], errors) (by simp)
  intro os
  induction os with
  | nil => intro acc hacc; simpa using hacc
  | cons o os ih =>
    intro acc hacc
    simp only [List.foldl_cons]
    exact ih (process_fly_org f acc o) (horg acc o hacc)

/-- dictGet on a cons in terms of the tail. -/
theorem dictGet_cons {α : Type} (p : String × α) (l : List (String × α))
    (k : String) :
    dictGet (p :: l) k = (dictGet l k).or (if p.1 == k then some p.2 else none) := by
  show List.foldl (fun acc q => if q.1 == k then some q.2 else acc)
      none (p :: l) = _
  rw [List.foldl_cons]
  exact dictGet_or l k (if p.1 == k then some p.2 else none)

/-- A successful dict read comes from an actual entry. -/
theorem dictGet_mem {α : Type} (l : List (String × α)) (k : String) (v : α)
    (h : dictGet l k = some v) : (k, v) ∈ l := by
  induction l with
  | nil => simp [dictGet] at h
  | cons p l ih =>
    rw [dictGet_cons] at h
    cases hl : dictGet l k with
    | some w =>
      rw [hl, Option.or_some] at h
      exact List.mem_cons_of_mem p (ih (hl.trans h))
    | none =>
      rw [hl] at h
      by_cases hp : (p.1 == k) = true
      · rw [if_pos hp] at h
        simp only [Option.or] at h
        have hk : p.1 = k := by simpa using hp
        have hv : p.2 = v := by simpa using h
        have : p = (k, v) := Prod.ext hk hv
        rw [← this]
        exact List.mem_cons_self p l
      · rw [if_neg hp] at h
        simp [Option.or] at h

/-- Processing a named app whose machines call may or may not succeed:
it is always indexed under its name. -/
theorem process_fly_app_named (f : FlyClient) (slug : String)
    (acc : List (String × FlyAppInfo) × List String) (app : RawFlyApp)
    (n : String) (hn : app.name = some n) (hne : (n == "") = false) :
    ∃ (ms : List FlyMachine) (errs : List String),
      process_fly_app f slug acc app =
        (acc.1 ++ [(n, { name := n, org_slug := slug,
                         status := app.status.getD "",
                         hostname := app.hostname.getD "",
                         machines := ms })], errs) := by
  cases hm : f.list_machines n with
  | ok l =>
    exact ⟨l.map (fun m =>
        { id := m.id.getD "", name := m.name.getD "",
          state := m.state.getD "unknown", region := m.region.getD "",
          image := m.image.getD "" }), acc.2,
      by simp [process_fly_app, hn, hne, hm]⟩
  | error e =>
    exact ⟨[], acc.2 ++ ["Fly machines for " ++ n ++ ": " ++ e],
      by simp [process_fly_app, hn, hne, hm]⟩

/-- C8: an app-listing failure for one fleet org contributes exactly one
error string naming that org and removes only that org's contribution to
the lookup (the other orgs' entries and errors are untouched); a
machine-listing failure for one named app contributes exactly one error
string naming the app while the app is still indexed with an empty machine
list. -/
theorem fleet_failures_isolated (f : FlyClient)
    (pre post : List FlyOrgConfig) (bad : FlyOrgConfig) (e : String)
    (ha : f.list_apps bad.slug = .error e) :
    build_fly_lookup f (pre ++ bad :: post) [] =
      ((build_fly_lookup f pre []).1 ++ (build_fly_lookup f post []).1,
       (build_fly_lookup f pre []).2 ++
         ("Fly org " ++ bad.slug ++ ": " ++ e) ::
           (build_fly_lookup f post []).2) ∧
    (∀ (slug n em : String) (app : RawFlyApp)
        (acc : List (String × FlyAppInfo) × List String),
      app.name = some n → (n == "") = false →
      f.list_machines n = .error em →
      process_fly_app f slug acc app =
        (acc.1 ++ [(n, { name := n, org_slug := slug,
                         status := app.status.getD "",
                         hostname := app.hostname.getD "",
                         machines := [] })],
         acc.2 ++ ["Fly machines for " ++ n ++ ": " ++ em])) := by
  constructor
  · have hmid : build_fly_lookup f [bad] [] =
        ([], ["Fly org " ++ bad.slug ++ ": " ++ e]) := by
      simp [build_fly_lookup, process_fly_org, ha]
    have hsplit : pre ++ bad :: post = (pre ++ [bad]) ++ post := by simp
    rw [hsplit, build_fly_lookup_append, build_fly_lookup_append, hmid]
    simp
  · intro slug n em app acc hn hne hm
    simp [process_fly_app, hn, hne, hm]

def flyFailWitness : FlyClient :=
  { list_apps := fun s => if s == "bad" then .error "down" else .ok []
    list_machines := fun _ => .error "mdown" }

theorem fleet_failures_isolated_witness :
    build_fly_lookup flyFailWitness
        ([{ slug := "g" }] ++ { slug := "bad" } :: [{ slug := "h" }]) [] =
      ((build_fly_lookup flyFailWitness [{ slug := "g" }] []).1 ++
         (build_fly_lookup flyFailWitness [{ slug := "h" }] []).1,
       (build_fly_lookup flyFailWitness [{ slug := "g" }] []).2 ++
         ("Fly org " ++ "bad" ++ ": " ++ "down") ::
           (build_fly_lookup flyFailWitness [{ slug := "h" }] []).2) :=
  (fleet_failures_isolated flyFailWitness [{ slug := "g" }] [{ slug := "h" }]
    { slug := "bad" } "down" rfl).1

/-- C9: when two successfully fetched apps share a name, the one processed
later overwrites the earlier in the lookup — both within one fleet org
(the later element of the org's app list wins) and across configured fleet
orgs (the later org wins) — so a repo bound to that name attaches to the
later app's data. -/
theorem duplicate_fly_app_last_wins (f : FlyClient) (n : String)
    (hne : (n == "") = false) (a2 : RawFlyApp) (hn : a2.name = some n) :
    (∀ (l : List (String × FlyAppInfo)) (v : FlyAppInfo),
      dictGet (l ++ [(n, v)]) n = some v) ∧
    (∀ (slug : String) (as : List RawFlyApp),
      f.list_apps slug = .ok (as ++ [a2]) →
      ∃ info, dictGet (build_fly_lookup f [{ slug := slug }] []).1 n = some info ∧
        info.name = n ∧ info.org_slug = slug ∧
        info.status = a2.status.getD "" ∧
        info.hostname = a2.hostname.getD "") ∧
    (∀ (os : List FlyOrgConfig) (slug2 : String) (as2 : List RawFlyApp),
      f.list_apps slug2 = .ok (as2 ++ [a2]) →
      ∃ info,
        dictGet (build_fly_lookup f (os ++ [{ slug := slug2 }]) []).1 n = some info ∧
        info.org_slug = slug2 ∧ info.status = a2.status.getD "" ∧
        ∀ (oc : OrgConfig) (rv : RepoView),
          get_fly_app_name oc rv.repo.name = some n →
          (attach_fly (build_fly_lookup f (os ++ [{ slug := slug2 }]) []).1
            oc rv).fly_app = some info) := by
  have horg1 : ∀ (slug : String) (as : List RawFlyApp),
      f.list_apps slug = .ok (as ++ [a2]) →
      ∃ (L : List (String × FlyAppInfo)) (E : List String) (ms : List FlyMachine),
        build_fly_lookup f [{ slug := slug }] [] =
          (L ++ [(n, { name := n, org_slug := slug,
                       status := a2.status.getD "",
                       hostname := a2.hostname.getD "",
                       machines := ms })], E) := by
    intro slug as hla
    have : build_fly_lookup f [{ slug := slug }] [] =
        process_fly_app f slug
          (as.foldl (process_fly_app f slug) ([], [])) a2 := by
      simp [build_fly_lookup, process_fly_org, hla, List.foldl_append]
    rcases process_fly_app_named f slug
        (as.foldl (process_fly_app f slug) ([], [])) a2 n hn hne with ⟨ms, errs, hp⟩
    exact ⟨_, _, ms, this.trans hp⟩
  refine ⟨fun l v => dictGet_snoc l n v, ?_, ?_⟩
  · intro slug as hla
    rcases horg1 slug as hla with ⟨L, E, ms, hb⟩
    refine ⟨{ name := n, org_slug := slug, status := a2.status.getD "",
              hostname := a2.hostname.getD "", machines := ms },
      ?_, rfl, rfl, rfl, rfl⟩
    rw [hb, dictGet_snoc]
  · intro os slug2 as2 hla
    rcases horg1 slug2 as2 hla with ⟨L, E, ms, hb⟩
    have hsplit := build_fly_lookup_append f os [{ slug := slug2 }] []
    rw [hb] at hsplit
    have hlk : (build_fly_lookup f (os ++ [{ slug := slug2 }]) []).1 =
        ((build_fly_lookup f os []).1 ++ L) ++
          [(n, { name := n, org_slug := slug2,
                 status := a2.status.getD "",
                 hostname := a2.hostname.getD "",
                 machines := ms })] := by
      rw [hsplit]
      simp
    refine ⟨{ name := n, org_slug := slug2, status := a2.status.getD "",
              hostname := a2.hostname.getD "", machines := ms },
      ?_, rfl, rfl, ?_⟩
    · rw [hlk, dictGet_snoc]
    · intro oc rv hfan
      have hred : attach_fly
          (build_fly_lookup f (os ++ [{ slug := slug2 }]) []).1 oc rv =
          (if (n == "") = true then rv
           else
             match dictGet (build_fly_lookup f (os ++ [{ slug := slug2 }]) []).1 n with
             | none => rv
             | some app => { rv with fly_app := some app }) := by
        simp only [attach_fly, hfan]
      rw [hred, if_neg (by simp [hne]), hlk, dictGet_snoc]

theorem duplicate_fly_app_witness :
    dictGet ([] ++ [("n", ({ name := "n" } : FlyAppInfo))]) "n" =
      some { name := "n" } :=
  (duplicate_fly_app_last_wins flyFailWitness "n" rfl { name := some "n" } rfl).1
    [] { name := "n" }

/-! ### Shape of a successful enrichment -/

theorem enrich_result_ok_shape (gh : GitHubClient) (oc : OrgConfig)
    (r : RawRepo) (v : RepoView) (h : enrich_result gh oc r = .ok v) :
    ∃ n, r.name = some n ∧ v.repo.org = oc.name ∧ v.repo.name = n ∧
      v.repo.default_branch = r.default_branch.getD "main" ∧
      v.fly_app = none ∧
      (fetch_branches gh oc.name n (r.default_branch.getD "main") []).1 =
        .ok v.repo.branches := by
  cases hn : r.name with
  | none =>
    simp only [enrich_result, enrich_repo, hn] at h
    cases h
  | some n =>
    simp only [enrich_result, enrich_repo, hn] at h
    rcases hfb : fetch_branches gh oc.name n (r.default_branch.getD "main") []
      with ⟨bE, e1⟩
    rw [hfb] at h
    rcases hfc : fetch_codespaces gh oc.name n e1 with ⟨cs, e2⟩
    rw [hfc] at h
    cases bE with
    | error e => simp at h
    | ok bs =>
      simp only at h
      have hv := (Except.ok.injEq _ _).mp h
      refine ⟨n, rfl, ?_, ?_, ?_, ?_, ?_⟩ <;> rw [← hv]
      simp [hfb]

/-- C7: with a configured fleet binding `fly_app = X` resolvable in the
fleet lookup, the enriched view is attached to the looked-up app, whose
name is `X`; with no binding, or an unresolvable one, the view keeps
`fly_app = none`; with no fleet client at all, every view of the build has
`fly_app = none`, and the build's errors are exactly the GitHub-side
errors (no fleet-attach error is ever produced). -/
theorem fly_attach_correct (f : FlyClient) (orgs : List FlyOrgConfig)
    (oc : OrgConfig) (rv : RepoView) (hnone : rv.fly_app = none) :
    (∀ (x : String) (app : FlyAppInfo),
      get_fly_app_name oc rv.repo.name = some x →
      dictGet (build_fly_lookup f orgs []).1 x = some app →
      (attach_fly (build_fly_lookup f orgs []).1 oc rv).fly_app = some app ∧
        app.name = x) ∧
    (get_fly_app_name oc rv.repo.name = none →
      (attach_fly (build_fly_lookup f orgs []).1 oc rv).fly_app = none) ∧
    (∀ x : String,
      get_fly_app_name oc rv.repo.name = some x →
      dictGet (build_fly_lookup f orgs []).1 x = none →
      (attach_fly (build_fly_lookup f orgs []).1 oc rv).fly_app = none) ∧
    (∀ (config : DashboardConfig) (gh : GitHubClient),
      ∀ v ∈ (build config gh none).repos, v.fly_app = none) ∧
    (∀ (config : DashboardConfig) (gh : GitHubClient),
      (build config gh none).errors =
        (config.github_orgs.map (org_errs gh)).flatten) := by
  refine ⟨?_, ?_, ?_, ?_, ?_⟩
  · intro x app hx happ
    have hinv := build_fly_lookup_inv f orgs []
      (x, app) (dictGet_mem _ _ _ happ)
    have hxne : (x == "") = false := hinv.2
    have hred : attach_fly (build_fly_lookup f orgs []).1 oc rv =
        (if (x == "") = true then rv
         else
           match dictGet (build_fly_lookup f orgs []).1 x with
           | none => rv
           | some app => { rv with fly_app := some app }) := by
      simp only [attach_fly, hx]
    rw [hred, if_neg (by simp [hxne]), happ]
    exact ⟨rfl, hinv.1⟩
  · intro hx
    simp only [attach_fly, hx, hnone]
  · intro x hx hget
    have hred : attach_fly (build_fly_lookup f orgs []).1 oc rv =
        (if (x == "") = true then rv
         else
           match dictGet (build_fly_lookup f orgs []).1 x with
           | none => rv
           | some app => { rv with fly_app := some app }) := by
      simp only [attach_fly, hx]
    rw [hred]
    by_cases hxe : (x == "") = true
    · rw [if_pos hxe]; exact hnone
    · rw [if_neg hxe, hget]; exact hnone
  · intro config gh v hv
    rw [build_spec] at hv
    simp only [DashboardData.repos] at hv
    rcases List.mem_flatten.mp hv with ⟨vs, hvs, hvmem⟩
    rcases List.mem_map.mp hvs with ⟨oc2, -, hoc2⟩
    rw [← hoc2] at hvmem
    simp only [org_views, fly_lookup_of] at hvmem
    rcases List.mem_map.mp hvmem with ⟨v0, hv0, hatt⟩
    rcases List.mem_filterMap.mp hv0 with ⟨r, -, hr⟩
    have hok : enrich_result gh oc2 r = .ok v0 := by
      cases he : enrich_result gh oc2 r with
      | error e => rw [he] at hr; cases hr
      | ok w => rw [he] at hr; simp only [Except.toOption] at hr
                cases hr; rfl
    rcases enrich_result_ok_shape gh oc2 r v0 hok with ⟨n, -, -, -, -, hfnone, -⟩
    have : attach_fly [] oc2 v0 = v0 := by
      cases hg : get_fly_app_name oc2 v0.repo.name with
      | none => simp [attach_fly, hg]
      | some y =>
        by_cases hye : (y == "") = true
        · simp [attach_fly, hg, hye]
        · simp [attach_fly, hg, hye, dictGet]
    rw [← hatt, this]
    exact hfnone
  · intro config gh
    rw [build_spec]
    simp [fly_errs_of]

def flyEmptyWitness : FlyClient :=
  { list_apps := fun _ => .ok [], list_machines := fun _ => .ok [] }

theorem fly_attach_witness :
    (attach_fly (build_fly_lookup flyEmptyWitness [] []).1
      { name := "o" } { repo := { org := "o", name := "r", full_name := "o/r" } }).fly_app
      = none :=
  (fly_attach_correct flyEmptyWitness [] { name := "o" }
    { repo := { org := "o", name := "r", full_name := "o/r" } } rfl).2.1 rfl

/-! ### Override precedence for duplicated names -/

/-- The override dict (a Python dict comprehension) keeps the last binding
for a duplicated name. -/
theorem overridesDict_last (pre post : List RepoConfig) (a : RepoConfig)
    (k : String) (ha : (a.name == k) = true)
    (hpost : ∀ c ∈ post, (c.name == k) = false) :
    overridesDict (pre ++ a :: post) k = some a := by
  have hstep : ∀ ps : List RepoConfig, (∀ c ∈ ps, (c.name == k) = false) →
      ∀ acc : Option RepoConfig,
      ps.foldl (fun acc r => if r.name == k then some r else acc) acc = acc := by
    intro ps
    induction ps with
    | nil => intro _ acc; rfl
    | cons c cs ih =>
      intro hcs acc
      rw [List.foldl_cons, if_neg (by simp [hcs c (List.mem_cons_self c cs)])]
      exact ih (fun x hx => hcs x (List.mem_cons_of_mem c hx)) acc
  show List.foldl (fun acc r => if r.name == k then some r else acc)
      none (pre ++ a :: post) = some a
  rw [List.foldl_append, List.foldl_cons, if_pos ha]
  exact hstep post hpost (some a)

/-- Category and tags of a successfully enriched repo come from the
override dict. -/
theorem enrich_repo_ok_category (gh : GitHubClient) (org : String)
    (rd : RawRepo) (ov : List RepoConfig) (errors : List String)
    (k : String) (v : RepoView) (hn : rd.name = some k)
    (h : (enrich_repo gh org rd ov errors).1 = .ok v) :
    v.repo.category =
      (match overridesDict ov k with
       | some o => o.category
       | none => "Uncategorized") ∧
    v.repo.tags =
      (match overridesDict ov k with
       | some o => o.tags
       | none => []) := by
  simp only [enrich_repo, hn] at h
  rcases hfb : fetch_branches gh org k (rd.default_branch.getD "main") errors
    with ⟨bE, e1⟩
  rw [hfb] at h
  rcases hfc : fetch_codespaces gh org k e1 with ⟨cs, e2⟩
  rw [hfc] at h
  cases bE with
  | error e => simp at h
  | ok bs =>
    simp only at h
    have hv := (Except.ok.injEq _ _).mp h
    rw [← hv]
    exact ⟨rfl, rfl⟩

/-- C5 (amended): when an override name is duplicated within an org, the
repo's category and tags come from the LAST matching override (the dict
comprehension overwrites), while the fleet-app binding comes from the
FIRST matching override (`_get_fly_app_name` returns on the first
match). -/
theorem override_precedence_split (gh : GitHubClient) (org : String)
    (rd : RawRepo) (pre post : List RepoConfig) (a : RepoConfig) (k : String)
    (errors : List String) (ha : a.name = k) :
    ((∀ c ∈ post, c.name ≠ k) → rd.name = some k →
      ∀ v : RepoView,
        (enrich_repo gh org rd (pre ++ a :: post) errors).1 = .ok v →
        v.repo.category = a.category ∧ v.repo.tags = a.tags) ∧
    ((∀ c ∈ pre, c.name ≠ k) → ∀ (nm : String) (inc : Bool),
      get_fly_app_name
        { name := nm, include_all := inc, repos := pre ++ a :: post } k =
        a.fly_app) := by
  constructor
  · intro hpost hn v hv
    have hd : overridesDict (pre ++ a :: post) k = some a :=
      overridesDict_last pre post a k (by simp [ha])
        (fun c hc => by simp [hpost c hc])
    have := enrich_repo_ok_category gh org rd (pre ++ a :: post) errors k v hn hv
    rw [hd] at this
    exact this
  · intro hpre nm inc
    simp only [get_fly_app_name]
    have hf : (pre ++ a :: post).find? (fun c => c.name == k) = some a := by
      rw [List.find?_append]
      have h1 : pre.find? (fun c => c.name == k) = none :=
        List.find?_eq_none.mpr (fun c hc => by simp [hpre c hc])
      rw [h1, List.find?_cons_of_pos _ (by simp [ha])]
      rfl
    rw [hf]

/-- Concrete input showing the two precedence rules disagree: org `o` has
two overrides both named `r`, the first binding fleet app `app1`, the
second (category `B`, tags `t2`) binding `app2`; both apps exist. -/
def ghDup : GitHubClient :=
  { list_org_repos := fun _ => .ok [{ name := some "r" }]
    list_branches := fun _ _ => .ok []
    compare_branches := fun _ _ _ _ => .error "x"
    list_codespaces := fun _ _ => .ok [] }

def flyDup : FlyClient :=
  { list_apps := fun _ => .ok [{ name := some "app1" }, { name := some "app2" }]
    list_machines := fun _ => .ok [] }

def cfgDup : DashboardConfig :=
  { github_orgs :=
      [{ name := "o"
         include_all := true
         repos :=
           [{ name := "r", category := "A", tags := ["t1"], fly_app := some "app1" },
            { name := "r", category := "B", tags := ["t2"], fly_app := some "app2" }] }]
    fly_orgs := [{ slug := "fo" }] }

/-- The claim "category, tags and fleet-app binding are all taken from the
last matching override" fails: on `cfgDup` the built view takes category
`B` and tags `t2` from the last override but attaches fleet app `app1`
from the first, and `app1 ≠ app2`. -/
theorem duplicate_override_counterexample :
    ((build cfgDup ghDup (some flyDup)).repos.map
        (fun v => (v.repo.category, v.repo.tags, v.fly_app.map FlyAppInfo.name))
      = [("B", ["t2"], some "app1")]) ∧ ("app1" : String) ≠ "app2" := by
  constructor
  · rfl
  · decide

theorem override_precedence_witness :
    get_fly_app_name
      { name := "o", include_all := true,
        repos := ([] : List RepoConfig) ++
          { name := "r", category := "A", tags := ["t1"], fly_app := some "app1" } ::
            [{ name := "r", category := "B", tags := ["t2"], fly_app := some "app2" }] }
      "r" = some "app1" :=
  (override_precedence_split ghDup "o" { name := some "r" } []
    [{ name := "r", category := "B", tags := ["t2"], fly_app := some "app2" }]
    { name := "r", category := "A", tags := ["t1"], fly_app := some "app1" }
    "r" [] rfl).2 (fun c hc => by cases hc) "o" true

/-! ### Output order -/

/-- Fleet attachment never touches the GitHub-side repo record. -/
theorem attach_fly_repo (lookup : List (String × FlyAppInfo)) (oc : OrgConfig)
    (rv : RepoView) : (attach_fly lookup oc rv).repo = rv.repo := by
  cases hg : get_fly_app_name oc rv.repo.name with
  | none => simp [attach_fly, hg]
  | some n =>
    by_cases hne : (n == "") = true
    · simp [attach_fly, hg, hne]
    · cases hd : dictGet lookup n with
      | none => simp [attach_fly, hg, hne, hd]
      | some app => simp [attach_fly, hg, hne, hd]

/-- When every working-set repo enriches successfully, the org's output
views project, in order, to the upstream (org, repo-name) sequence. -/
theorem org_views_names (gh : GitHubClient)
    (lookup : List (String × FlyAppInfo)) (oc : OrgConfig)
    (hok : ∀ r ∈ working_set gh oc, ∃ v, enrich_result gh oc r = .ok v) :
    (org_views gh lookup oc).map (fun v => (v.repo.org, v.repo.name)) =
      (working_set gh oc).map (fun r => (oc.name, r.name.getD "")) := by
  suffices hgen : ∀ xs : List RawRepo,
      (∀ r ∈ xs, ∃ v, enrich_result gh oc r = .ok v) →
      ((xs.filterMap (fun r => (enrich_result gh oc r).toOption)).map
          (attach_fly lookup oc)).map (fun v => (v.repo.org, v.repo.name)) =
        xs.map (fun r => (oc.name, r.name.getD "")) by
    exact hgen (working_set gh oc) hok
  intro xs
  induction xs with
  | nil => intro _; rfl
  | cons r xs ih =>
    intro hx
    rcases hx r (List.mem_cons_self r xs) with ⟨v, hv⟩
    rcases enrich_result_ok_shape gh oc r v hv with ⟨n, hn, horg, hname, -, -, -⟩
    have hstep : (r :: xs).filterMap (fun q => (enrich_result gh oc q).toOption) =
        v :: xs.filterMap (fun q => (enrich_result gh oc q).toOption) := by
      simp [List.filterMap_cons, hv, Except.toOption]
    rw [hstep]
    simp only [List.map_cons, attach_fly_repo]
    rw [ih (fun x hxm => hx x (List.mem_cons_of_mem r hxm)), horg, hname, hn]
    rfl

/-- C3: the repos list of `build` is the concatenation, in configured-org
order, of each org's enriched working set in upstream-listing order; in
particular its (org, name) projection is the concatenation of the per-org
upstream name sequences.  (The embedding sequentializes `asyncio.gather`,
whose result list is in task order regardless of completion order.) -/
theorem output_order_stable (config : DashboardConfig) (gh : GitHubClient)
    (fly : Option FlyClient)
    (hok : ∀ oc ∈ config.github_orgs, ∀ r ∈ working_set gh oc,
      ∃ v, enrich_result gh oc r = .ok v) :
    ((build config gh fly).repos =
      (config.github_orgs.map
        (fun oc => org_views gh (fly_lookup_of fly config) oc)).flatten) ∧
    ((build config gh fly).repos.map (fun v => (v.repo.org, v.repo.name)) =
      (config.github_orgs.map
        (fun oc => (working_set gh oc).map
          (fun r => (oc.name, r.name.getD "")))).flatten) := by
  constructor
  · rw [build_spec]
  · rw [build_spec]
    simp only [DashboardData.repos]
    rw [List.map_flatten, List.map_map]
    congr 1
    exact List.map_congr_left
      (fun oc hoc => org_views_names gh (fly_lookup_of fly config) oc (hok oc hoc))

theorem output_order_witness :
    (build { github_orgs := [{ name := "o" }] } ghWitness none).repos.map
        (fun v => (v.repo.org, v.repo.name)) =
      (([{ name := "o" }] : List OrgConfig).map
        (fun oc => (working_set ghWitness oc).map
          (fun r => (oc.name, r.name.getD "")))).flatten :=
  (output_order_stable { github_orgs := [{ name := "o" }] } ghWitness none
    (by
      intro oc hoc r hr
      rcases List.mem_singleton.mp hoc with rfl
      simp [working_set, ghWitness] at hr)).2

/-! ### Degrade-not-abort for a failed branch listing -/

/-- Enrichment succeeds whenever the repo is named, the branch phase did
not raise, and the codespace listing succeeded; the errors it contributes
are exactly the branch-phase errors. -/
theorem enrich_result_ok_of (gh : GitHubClient) (oc : OrgConfig) (r : RawRepo)
    (n : String) (hn : r.name = some n)
    (hfb : ∃ bs, (fetch_branches gh oc.name n (r.default_branch.getD "main") []).1 = .ok bs)
    (hcs : ∃ cs0, gh.list_codespaces oc.name n = .ok cs0) :
    ∃ v, enrich_result gh oc r = .ok v ∧
      enrich_errs gh oc r =
        (fetch_branches gh oc.name n (r.default_branch.getD "main") []).2 := by
  rcases hfb with ⟨bs, hbs⟩
  rcases hcs with ⟨cs0, hcs0⟩
  rcases hp : fetch_branches gh oc.name n (r.default_branch.getD "main") []
    with ⟨bE, e1⟩
  have hbE : bE = .ok bs := by rw [hp] at hbs; exact hbs
  subst hbE
  have hfc : fetch_codespaces gh oc.name n e1 =
      (cs0.map (fun cs =>
        { name := cs.name.getD "", state := cs.state.getD "Unknown",
          owner := cs.owner_login.getD "" }), e1) := by
    simp [fetch_codespaces, hcs0]
  simp only [enrich_result, enrich_errs, enrich_repo, hn]
  rw [hp, hfc]
  exact ⟨_, rfl, rfl⟩

/-- Per-repo characterization under the C1 oracle hypotheses: the repo
enriches successfully; exactly when it is the failing (org, repo) pair it
contributes the single branch error and an empty branch list, otherwise it
contributes no error. -/
theorem per_repo_char (gh : GitHubClient) (oc : OrgConfig) (o0 r0 ebr : String)
    (hbr : gh.list_branches o0 r0 = .error ebr)
    (hbrok : ∀ o q : String, ¬(o = o0 ∧ q = r0) →
      ∃ bs, gh.list_branches o q = .ok bs ∧ ∀ b ∈ bs, b.name.isSome)
    (hcs : ∀ o q : String, ∃ cs0, gh.list_codespaces o q = .ok cs0)
    (r : RawRepo) (n : String) (hn : r.name = some n) :
    ∃ v, enrich_result gh oc r = .ok v ∧
      v.repo.org = oc.name ∧ v.repo.name = n ∧
      (fetch_branches gh v.repo.org v.repo.name v.repo.default_branch []).1 =
        .ok v.repo.branches ∧
      (if oc.name = o0 ∧ n = r0 then
        enrich_errs gh oc r = ["Branches for " ++ o0 ++ "/" ++ r0 ++ ": " ++ ebr] ∧
          v.repo.branches = []
       else enrich_errs gh oc r = []) := by
  by_cases hm : oc.name = o0 ∧ n = r0
  · obtain ⟨h1, h2⟩ := hm
    have he : gh.list_branches oc.name n = .error ebr := by rw [h1, h2]; exact hbr
    have hfb : fetch_branches gh oc.name n (r.default_branch.getD "main") [] =
        (.ok [], ["Branches for " ++ oc.name ++ "/" ++ n ++ ": " ++ ebr]) := by
      simp [fetch_branches, he]
    obtain ⟨v, hv, herrs⟩ := enrich_result_ok_of gh oc r n hn
      ⟨[], by rw [hfb]⟩ (hcs oc.name n)
    obtain ⟨n2, hn2, horg, hname, hdb, -, hfbv⟩ := enrich_result_ok_shape gh oc r v hv
    have hnn : n2 = n := by
      rw [hn] at hn2
      exact (Option.some_inj.mp hn2).symm
    subst hnn
    have hbemp : v.repo.branches = [] := by
      rw [hfb] at hfbv
      exact ((Except.ok.injEq _ _).mp hfbv).symm
    refine ⟨v, hv, horg, hname, ?_, ?_⟩
    · rw [horg, hname, hdb]
      exact hfbv
    · rw [if_pos ⟨h1, h2⟩]
      exact ⟨by rw [herrs, hfb, h1, h2], hbemp⟩
  · obtain ⟨bs, hok, hbn⟩ := hbrok oc.name n hm
    obtain ⟨l, hl, -⟩ :=
      enrich_branches_ok gh oc.name n (r.default_branch.getD "main") bs hbn
    have hfb : fetch_branches gh oc.name n (r.default_branch.getD "main") [] =
        (.ok l, []) := by
      simp [fetch_branches, hok, hl]
    obtain ⟨v, hv, herrs⟩ := enrich_result_ok_of gh oc r n hn
      ⟨l, by rw [hfb]⟩ (hcs oc.name n)
    obtain ⟨n2, hn2, horg, hname, hdb, -, hfbv⟩ := enrich_result_ok_shape gh oc r v hv
    have hnn : n2 = n := by
      rw [hn] at hn2
      exact (Option.some_inj.mp hn2).symm
    subst hnn
    refine ⟨v, hv, horg, hname, ?_, ?_⟩
    · rw [horg, hname, hdb]
      exact hfbv
    · rw [if_neg hm, herrs, hfb]

/-- Per-org characterization: every named working-set repo yields a view;
error strings are one branch message per occurrence of the failing repo;
the failing repo count carries over to the views; every view's branches
are its own branch fetch, empty for the failing repo. -/
theorem org_list_char (gh : GitHubClient) (oc : OrgConfig)
    (lookup : List (String × FlyAppInfo)) (o0 r0 ebr : String)
    (hbr : gh.list_branches o0 r0 = .error ebr)
    (hbrok : ∀ o q : String, ¬(o = o0 ∧ q = r0) →
      ∃ bs, gh.list_branches o q = .ok bs ∧ ∀ b ∈ bs, b.name.isSome)
    (hcs : ∀ o q : String, ∃ cs0, gh.list_codespaces o q = .ok cs0) :
    ∀ xs : List RawRepo, (∀ r ∈ xs, r.name.isSome) →
    (xs.filterMap (fun q => (enrich_result gh oc q).toOption)).length = xs.length ∧
    (xs.map (enrich_errs gh oc)).flatten =
      List.replicate (xs.countP (fun q => oc.name == o0 && q.name == some r0))
        ("Branches for " ++ o0 ++ "/" ++ r0 ++ ": " ++ ebr) ∧
    ((xs.filterMap (fun q => (enrich_result gh oc q).toOption)).map
        (attach_fly lookup oc)).countP
        (fun v => v.repo.org == o0 && v.repo.name == r0) =
      xs.countP (fun q => oc.name == o0 && q.name == some r0) ∧
    (∀ v ∈ (xs.filterMap (fun q => (enrich_result gh oc q).toOption)).map
        (attach_fly lookup oc),
      (fetch_branches gh v.repo.org v.repo.name v.repo.default_branch []).1 =
        .ok v.repo.branches ∧
      (v.repo.org = o0 → v.repo.name = r0 → v.repo.branches = [])) := by
  intro xs
  induction xs with
  | nil => intro _; exact ⟨rfl, by simp, by simp, by simp⟩
  | cons r xs ih =>
    intro hx
    obtain ⟨n, hn⟩ := Option.isSome_iff_exists.mp (hx r (List.mem_cons_self r xs))
    obtain ⟨v, hv, horg, hname, hfetch, hcond⟩ :=
      per_repo_char gh oc o0 r0 ebr hbr hbrok hcs r n hn
    obtain ⟨ih1, ih2, ih3, ih4⟩ := ih (fun x hxm => hx x (List.mem_cons_of_mem r hxm))
    have hflt : (r :: xs).filterMap (fun q => (enrich_result gh oc q).toOption) =
        v :: xs.filterMap (fun q => (enrich_result gh oc q).toOption) := by
      simp [List.filterMap_cons, hv, Except.toOption]
    have hpredv : ((attach_fly lookup oc v).repo.org == o0 &&
        (attach_fly lookup oc v).repo.name == r0) =
        (oc.name == o0 && (n == r0)) := by
      rw [attach_fly_repo, horg, hname]
    by_cases hm : oc.name = o0 ∧ n = r0
    · obtain ⟨herr, hbemp⟩ := (if_pos hm) ▸ hcond
      have hpred : (oc.name == o0 && (r.name == some r0)) = true := by
        rw [hn, hm.1, hm.2]
        simp
      refine ⟨?_, ?_, ?_, ?_⟩
      · rw [hflt]
        simp [ih1]
      · rw [List.map_cons, List.flatten_cons, herr, List.countP_cons, hpred]
        rw [ih2]
        simp [List.replicate_succ, List.replicate_add]
      · rw [hflt, List.map_cons, List.countP_cons, List.countP_cons, hpred]
        rw [hpredv, ih3]
        congr 1
        rw [hm.1, hm.2]
        simp
      · intro w hw
        rw [hflt, List.map_cons] at hw
        rcases List.mem_cons.mp hw with hw | hw
        · subst hw
          rw [attach_fly_repo]
          exact ⟨hfetch, fun _ _ => hbemp⟩
        · exact ih4 w hw
    · have herr : enrich_errs gh oc r = [] := by
        rw [if_neg hm] at hcond
        exact hcond
      have hpred : (oc.name == o0 && (r.name == some r0)) = false := by
        rw [hn]
        by_cases h1 : oc.name = o0 <;> by_cases h2 : n = r0 <;> simp_all
      refine ⟨?_, ?_, ?_, ?_⟩
      · rw [hflt]
        simp [ih1]
      · rw [List.map_cons, List.flatten_cons, herr, List.countP_cons, hpred]
        simpa using ih2
      · rw [hflt, List.map_cons, List.countP_cons, List.countP_cons, hpred]
        rw [hpredv, ih3]
        congr 1
        rw [hn] at hpred
        simpa using hpred
      · intro w hw
        rw [hflt, List.map_cons] at hw
        rcases List.mem_cons.mp hw with hw | hw
        · subst hw
          rw [attach_fly_repo]
          refine ⟨hfetch, ?_⟩
          intro hwo hwn
          exact absurd ⟨horg.symm.trans hwo, hname.symm.trans hwn⟩ hm
        · exact ih4 w hw

theorem flatten_replicate_sum {α : Type} (m : α) (f : OrgConfig → Nat) :
    ∀ ocs : List OrgConfig,
      (ocs.map (fun oc => List.replicate (f oc) m)).flatten =
        List.replicate ((ocs.map f).sum) m := by
  intro ocs
  induction ocs with
  | nil => rfl
  | cons oc ocs ih =>
    simp only [List.map_cons, List.flatten_cons, List.sum_cons, ih,
      List.replicate_add]

/-- C1: when the branch-listing call fails for exactly one (org, repo)
pair in the working sets and every other upstream call succeeds, `build`
still returns one view per working-set repo, exactly one of which is the
failed repo; the error list is exactly the single branch-error string
naming that org/repo; and every view's branches equal its own branch
fetch, the failed repo's being empty. -/
theorem branch_failure_degrades (config : DashboardConfig) (gh : GitHubClient)
    (fly : Option FlyClient) (o0 r0 ebr : String)
    (hfly : fly_errs_of fly config = [])
    (hbr : gh.list_branches o0 r0 = .error ebr)
    (hbrok : ∀ o q : String, ¬(o = o0 ∧ q = r0) →
      ∃ bs, gh.list_branches o q = .ok bs ∧ ∀ b ∈ bs, b.name.isSome)
    (hcs : ∀ o q : String, ∃ cs0, gh.list_codespaces o q = .ok cs0)
    (horgs : ∀ oc ∈ config.github_orgs, ∃ rs, gh.list_org_repos oc.name = .ok rs)
    (hnames : ∀ oc ∈ config.github_orgs, ∀ r ∈ working_set gh oc, r.name.isSome)
    (huniq : (config.github_orgs.map (fun oc =>
        (working_set gh oc).countP
          (fun q => oc.name == o0 && q.name == some r0))).sum = 1) :
    (build config gh fly).repos.length =
      (config.github_orgs.map (fun oc => (working_set gh oc).length)).sum ∧
    (build config gh fly).repos.countP
        (fun v => v.repo.org == o0 && v.repo.name == r0) = 1 ∧
    (build config gh fly).errors =
      ["Branches for " ++ o0 ++ "/" ++ r0 ++ ": " ++ ebr] ∧
    (∀ v ∈ (build config gh fly).repos,
      (fetch_branches gh v.repo.org v.repo.name v.repo.default_branch []).1 =
        .ok v.repo.branches ∧
      (v.repo.org = o0 → v.repo.name = r0 → v.repo.branches = [])) := by
  have hbs := build_spec config gh fly
  have Hoc := fun (oc : OrgConfig) (hoc : oc ∈ config.github_orgs) =>
    org_list_char gh oc (fly_lookup_of fly config) o0 r0 ebr hbr hbrok hcs
      (working_set gh oc) (hnames oc hoc)
  refine ⟨?_, ?_, ?_, ?_⟩
  · rw [hbs]
    show (List.map (org_views gh (fly_lookup_of fly config))
        config.github_orgs).flatten.length = _
    rw [List.length_flatten, List.map_map]
    congr 1
    refine List.map_congr_left (fun oc hoc => ?_)
    show (org_views gh (fly_lookup_of fly config) oc).length = _
    simp only [org_views, List.length_map]
    exact (Hoc oc hoc).1
  · rw [hbs]
    show (List.map (org_views gh (fly_lookup_of fly config))
        config.github_orgs).flatten.countP _ = 1
    rw [List.countP_flatten, List.map_map]
    have hmaps : List.map
        ((List.countP (fun v => v.repo.org == o0 && v.repo.name == r0)) ∘
          org_views gh (fly_lookup_of fly config)) config.github_orgs =
        List.map (fun oc => (working_set gh oc).countP
          (fun q => oc.name == o0 && q.name == some r0)) config.github_orgs :=
      List.map_congr_left (fun oc hoc => (Hoc oc hoc).2.2.1)
    rw [hmaps, huniq]
  · rw [hbs]
    show fly_errs_of fly config ++
        (List.map (org_errs gh) config.github_orgs).flatten = _
    rw [hfly, List.nil_append]
    have hoe : List.map (org_errs gh) config.github_orgs =
        List.map (fun oc => List.replicate
          ((working_set gh oc).countP
            (fun q => oc.name == o0 && q.name == some r0))
          ("Branches for " ++ o0 ++ "/" ++ r0 ++ ": " ++ ebr))
          config.github_orgs :=
      List.map_congr_left (fun oc hoc => by
        obtain ⟨rs, hrs⟩ := horgs oc hoc
        simp only [org_errs, hrs]
        exact (Hoc oc hoc).2.1)
    rw [hoe, flatten_replicate_sum, huniq, List.replicate_one]
  · intro v hv
    have hv2 : v ∈ (List.map (org_views gh (fly_lookup_of fly config))
        config.github_orgs).flatten := by
      rw [hbs] at hv
      exact hv
    rcases List.mem_flatten.mp hv2 with ⟨l0, hl0, hvm⟩
    rcases List.mem_map.mp hl0 with ⟨oc, hoc, heq⟩
    rw [← heq] at hvm
    exact (Hoc oc hoc).2.2.2 v hvm

/-- Client for the C1 witness: three repos in one org, branch listing
failing only for `o/bad`. -/
def ghBranchFail : GitHubClient :=
  { list_org_repos := fun _ =>
      .ok [{ name := some "a" }, { name := some "bad" }, { name := some "c" }]
    list_branches := fun o q =>
      if o == "o" && q == "bad" then .error "boom" else .ok []
    compare_branches := fun _ _ _ _ => .error "x"
    list_codespaces := fun _ _ => .ok [] }

theorem branch_failure_witness :
    (build { github_orgs := [{ name := "o" }] } ghBranchFail none).errors =
      ["Branches for " ++ "o" ++ "/" ++ "bad" ++ ": " ++ "boom"] :=
  (branch_failure_degrades { github_orgs := [{ name := "o" }] } ghBranchFail
    none "o" "bad" "boom" rfl rfl
    (by
      intro o q hne
      have hc : (o == "o" && q == "bad") = false := by
        by_cases h1 : o = "o" <;> by_cases h2 : q = "bad" <;> simp_all
      refine ⟨[], ?_, by simp⟩
      show (if o == "o" && q == "bad" then
          (.error "boom" : Except String (List RawBranch)) else .ok []) = .ok []
      rw [hc]
      rfl)
    (fun _ _ => ⟨[], rfl⟩)
    (fun oc _ => ⟨_, rfl⟩)
    (by
      intro oc hoc r hr
      rcases List.mem_singleton.mp hoc with rfl
      have : working_set ghBranchFail { name := "o" } =
          [{ name := some "a" }, { name := some "bad" }, { name := some "c" }] := rfl
      rw [this] at hr
      simp only [List.mem_cons, List.not_mem_nil, or_false] at hr
      rcases hr with rfl | rfl | rfl <;> rfl)
    rfl).2.2.1

end Aggregator
